import Mathlib

/-!
Verification development for the patent-classification batch tool
(`streamlit_app.py`).  The file shallowly embeds the parts of the program
that the specification's claims are about:

* the JSON documents exchanged with the remote batch service, together with
  the serializer corresponding to Python's `json.dumps(..., ensure_ascii=False)`
  (default separators `", "` and `": "`) and a parser corresponding to
  `json.loads`;
* the taxonomy ("classification system") dictionaries, their preview
  rendering `format_classification_system`, and the config load/save logic;
* the request builder `create_batch_jsonl`;
* the batch-status polling loop of `main`;
* the result pipeline of `main` (`process_batch_results` is called by the
  code but its definition is absent from the sources; it is modelled from
  the spec where needed).

Machine integers do not occur on any modelled path; all numerals in the
exchanged JSON are carried as their literal text.
-/

/- JSON values, as produced by `json.loads` / consumed by `json.dumps`.
Number literals are kept as their source text (the only numeral the program
ever serializes is the fixed temperature `0.1`).  Object fields are an
ordered association list, matching the insertion-ordered `dict` of
Python 3.7+. -/
mutual

inductive JValue where
  | null : JValue
  | bool (b : Bool) : JValue
  | num (lit : String) : JValue
  | str (s : String) : JValue
  | arr (xs : JArr) : JValue
  | obj (fs : JObj) : JValue

inductive JArr where
  | nil : JArr
  | cons (hd : JValue) (tl : JArr) : JArr

inductive JObj where
  | nil : JObj
  | cons (key : String) (val : JValue) (tl : JObj) : JObj

end

/-- Lowercase hex digit, as used by `json.dumps` for `\u00xx` escapes. -/
def hexDigit : Nat → Char
  | 0 => '0' | 1 => '1' | 2 => '2' | 3 => '3'
  | 4 => '4' | 5 => '5' | 6 => '6' | 7 => '7'
  | 8 => '8' | 9 => '9' | 10 => 'a' | 11 => 'b'
  | 12 => 'c' | 13 => 'd' | 14 => 'e' | 15 => 'f'
  | _ => '0'

/-- Escaping of one character inside a JSON string literal, following
`json.dumps` with `ensure_ascii=False`: only `"`, `\` and control
characters below `0x20` are escaped; everything else (including non-ASCII)
is emitted verbatim. -/
def escCharL (c : Char) : List Char :=
  if c = '"' then ['\\', '"']
  else if c = '\\' then ['\\', '\\']
  else if c = '\n' then ['\\', 'n']
  else if c = '\t' then ['\\', 't']
  else if c = '\r' then ['\\', 'r']
  else if c = Char.ofNat 8 then ['\\', 'b']
  else if c = Char.ofNat 12 then ['\\', 'f']
  else if c.toNat < 32 then
    ['\\', 'u', '0', '0', hexDigit (c.toNat / 16), hexDigit (c.toNat % 16)]
  else [c]

def escStrL : List Char → List Char
  | [] => []
  | c :: cs => escCharL c ++ escStrL cs

/- Serializer for `json.dumps(v, ensure_ascii=False)` with the default
separators `", "` (items) and `": "` (keys), producing the character list
of the document. -/
mutual

def dumpsV : JValue → List Char
  | .null => "null".data
  | .bool true => "true".data
  | .bool false => "false".data
  | .num lit => lit.data
  | .str s => '"' :: (escStrL s.data ++ ['"'])
  | .arr xs => '[' :: dumpsA xs
  | .obj fs => '{' :: dumpsF fs

def dumpsA : JArr → List Char
  | .nil => [']']
  | .cons v .nil => dumpsV v ++ [']']
  | .cons v (.cons w t) => dumpsV v ++ ',' :: ' ' :: dumpsA (.cons w t)

def dumpsF : JObj → List Char
  | .nil => ['}']
  | .cons k v .nil =>
      '"' :: (escStrL k.data ++ '"' :: ':' :: ' ' :: (dumpsV v ++ ['}']))
  | .cons k v (.cons k2 w t) =>
      '"' :: (escStrL k.data ++ '"' :: ':' :: ' ' ::
        (dumpsV v ++ ',' :: ' ' :: dumpsF (.cons k2 w t)))

end

/-- `json.dumps(v, ensure_ascii=False)` as a `String`. -/
def dumpsStr (v : JValue) : String := String.mk (dumpsV v)

/-- JSON whitespace. -/
def isWs (c : Char) : Bool :=
  c.toNat = 32 || c.toNat = 10 || c.toNat = 9 || c.toNat = 13

def skipWs : List Char → List Char
  | [] => []
  | c :: r => if isWs c then skipWs r else c :: r

def hexVal (c : Char) : Option Nat :=
  if 48 ≤ c.toNat ∧ c.toNat ≤ 57 then some (c.toNat - 48)
  else if 97 ≤ c.toNat ∧ c.toNat ≤ 102 then some (c.toNat - 87)
  else if 65 ≤ c.toNat ∧ c.toNat ≤ 70 then some (c.toNat - 55)
  else none

/-- Single-character JSON escapes (`\u` sequences are handled separately). -/
def unescChar (c : Char) : Option Char :=
  if c = '"' then some '"'
  else if c = '\\' then some '\\'
  else if c = '/' then some '/'
  else if c = 'n' then some '\n'
  else if c = 't' then some '\t'
  else if c = 'r' then some '\r'
  else if c = 'b' then some (Char.ofNat 8)
  else if c = 'f' then some (Char.ofNat 12)
  else none

/-- Body of a JSON string literal (input starts after the opening quote);
returns the decoded characters and the remainder after the closing quote. -/
def parseJStr : List Char → Option (List Char × List Char)
  | [] => none
  | c :: r =>
    if c = '"' then some ([], r)
    else if c = '\\' then
      match r with
      | 'u' :: h1 :: h2 :: h3 :: h4 :: r2 =>
        match hexVal h1, hexVal h2, hexVal h3, hexVal h4 with
        | some a, some b, some c3, some d =>
          (parseJStr r2).map (fun p =>
            (Char.ofNat (4096 * a + 256 * b + 16 * c3 + d) :: p.1, p.2))
        | _, _, _, _ => none
      | e :: r2 =>
        match unescChar e with
        | some d => (parseJStr r2).map (fun p => (d :: p.1, p.2))
        | none => none
      | [] => none
    else (parseJStr r).map (fun p => (c :: p.1, p.2))

/-- Characters that may occur in a JSON number literal. -/
def isNumChar (c : Char) : Bool :=
  (48 ≤ c.toNat && c.toNat ≤ 57) || c.toNat = 45 || c.toNat = 43 ||
    c.toNat = 46 || c.toNat = 101 || c.toNat = 69

/- Fuelled JSON parser (the model of `json.loads`).  Fuel strictly
decreases into every sub-parse; `jsonFull` below supplies enough fuel for
any input. -/
mutual

def jparseV : Nat → List Char → Option (JValue × List Char)
  | 0, _ => none
  | fuel + 1, cs =>
    match skipWs cs with
    | [] => none
    | c :: r =>
      if c = '"' then (parseJStr r).map (fun p => (JValue.str (String.mk p.1), p.2))
      else if c = '{' then (jparseFields fuel r).map (fun p => (JValue.obj p.1, p.2))
      else if c = '[' then (jparseElems fuel r).map (fun p => (JValue.arr p.1, p.2))
      else if c = 't' then
        match r with
        | 'r' :: 'u' :: 'e' :: r2 => some (JValue.bool true, r2)
        | _ => none
      else if c = 'f' then
        match r with
        | 'a' :: 'l' :: 's' :: 'e' :: r2 => some (JValue.bool false, r2)
        | _ => none
      else if c = 'n' then
        match r with
        | 'u' :: 'l' :: 'l' :: r2 => some (JValue.null, r2)
        | _ => none
      else if isNumChar c then
        some (JValue.num (String.mk ((c :: r).takeWhile isNumChar)),
          (c :: r).dropWhile isNumChar)
      else none

def jparseElems : Nat → List Char → Option (JArr × List Char)
  | 0, _ => none
  | fuel + 1, cs =>
    match skipWs cs with
    | [] => none
    | c :: r =>
      if c = ']' then some (.nil, r)
      else
        match jparseV fuel (c :: r) with
        | none => none
        | some (v, r1) =>
          match skipWs r1 with
          | ',' :: r2 => (jparseElems fuel r2).map (fun p => (.cons v p.1, p.2))
          | ']' :: r2 => some (.cons v .nil, r2)
          | _ => none

def jparseFields : Nat → List Char → Option (JObj × List Char)
  | 0, _ => none
  | fuel + 1, cs =>
    match skipWs cs with
    | [] => none
    | c :: r =>
      if c = '}' then some (.nil, r)
      else if c = '"' then
        match parseJStr r with
        | none => none
        | some (k, r1) =>
          match skipWs r1 with
          | ':' :: r2 =>
            match jparseV fuel r2 with
            | none => none
            | some (v, r3) =>
              match skipWs r3 with
              | ',' :: r4 => (jparseFields fuel r4).map
                  (fun p => (.cons (String.mk k) v p.1, p.2))
              | '}' :: r4 => some (.cons (String.mk k) v .nil, r4)
              | _ => none
          | _ => none
      else none

end

/-- `json.loads` on a whole document: parse one value and require the
remainder to be whitespace. -/
def jsonFull (s : String) : Option JValue :=
  match jparseV (s.data.length + 1) s.data with
  | some (v, r) => if skipWs r = [] then some v else none
  | none => none

/-! ## Well-formedness, fuel measure, and basic parsing lemmas -/

/- A `JValue` is well formed when every number literal in it is a nonempty
run of number characters (true of every document the program serializes:
the only literal is `0.1`). -/
mutual

def wfV : JValue → Bool
  | .null => true
  | .bool _ => true
  | .str _ => true
  | .num lit => !lit.data.isEmpty && lit.data.all isNumChar
  | .arr xs => wfA xs
  | .obj fs => wfF fs

def wfA : JArr → Bool
  | .nil => true
  | .cons v t => wfV v && wfA t

def wfF : JObj → Bool
  | .nil => true
  | .cons _ v t => wfV v && wfF t

end

/- Fuel sufficient for `jparseV` to reparse a dumped value. -/
mutual

def fV : JValue → Nat
  | .null => 1
  | .bool _ => 1
  | .num _ => 1
  | .str _ => 1
  | .arr xs => fA xs + 1
  | .obj fs => fF fs + 1

def fA : JArr → Nat
  | .nil => 1
  | .cons v .nil => fV v + 1
  | .cons v (.cons w t) => fV v + fA (.cons w t) + 1

def fF : JObj → Nat
  | .nil => 1
  | .cons _ v .nil => fV v + 1
  | .cons _ v (.cons k2 w t) => fV v + fF (.cons k2 w t) + 1

end

/-- The character following a dumped number must not extend the numeral. -/
def numSafeB : List Char → Bool
  | [] => true
  | c :: _ => !isNumChar c

theorem char_toNat_inj {c d : Char} (h : c.toNat = d.toNat) : c = d := by
  have h1 := Char.ofNat_toNat c
  have h2 := Char.ofNat_toNat d
  rw [h, h2] at h1
  exact h1.symm

theorem skipWs_cons (c : Char) (l : List Char) (h : isWs c = false) :
    skipWs (c :: l) = c :: l := by
  simp [skipWs, h]

theorem skipWs_ws (c : Char) (l : List Char) (h : isWs c = true) :
    skipWs (c :: l) = skipWs l := by
  simp [skipWs, h]

theorem jparseV_skip (n : Nat) (cs cs' : List Char)
    (h : skipWs cs = skipWs cs') : jparseV n cs = jparseV n cs' := by
  cases n with
  | zero => rfl
  | succ n => simp only [jparseV]; rw [h]

theorem jparseElems_skip (n : Nat) (cs cs' : List Char)
    (h : skipWs cs = skipWs cs') : jparseElems n cs = jparseElems n cs' := by
  cases n with
  | zero => rfl
  | succ n => simp only [jparseElems]; rw [h]

theorem jparseFields_skip (n : Nat) (cs cs' : List Char)
    (h : skipWs cs = skipWs cs') : jparseFields n cs = jparseFields n cs' := by
  cases n with
  | zero => rfl
  | succ n => simp only [jparseFields]; rw [h]

theorem hexVal_hexDigit : ∀ n, n < 16 → hexVal (hexDigit n) = some n := by
  decide

theorem string_mk_data (s : String) : String.mk s.data = s := rfl

/-- Dumping then reading back a JSON string body is the identity. -/
theorem parseJStr_esc : ∀ (s rest : List Char),
    parseJStr (escStrL s ++ '"' :: rest) = some (s, rest) := by
  intro s
  induction s with
  | nil =>
    intro rest
    show parseJStr ([] ++ '"' :: rest) = some ([], rest)
    rw [List.nil_append, parseJStr.eq_def]
    simp
  | cons c cs ih =>
    intro rest
    have base : parseJStr (escStrL (c :: cs) ++ '"' :: rest)
        = parseJStr (escCharL c ++ (escStrL cs ++ '"' :: rest)) := by
      simp [escStrL, List.append_assoc]
    rw [base]
    by_cases h1 : c = '"'
    · subst h1
      have e : escCharL '"' = ['\\', '"'] := by decide
      rw [e]
      simp only [List.cons_append, List.nil_append]
      rw [parseJStr.eq_def]
      simp +decide [unescChar, ih]
    by_cases h2 : c = '\\'
    · subst h2
      have e : escCharL '\\' = ['\\', '\\'] := by decide
      rw [e]
      simp only [List.cons_append, List.nil_append]
      rw [parseJStr.eq_def]
      simp +decide [unescChar, ih]
    by_cases h3 : c = '\n'
    · subst h3
      have e : escCharL '\n' = ['\\', 'n'] := by decide
      rw [e]
      simp only [List.cons_append, List.nil_append]
      rw [parseJStr.eq_def]
      simp +decide [unescChar, ih]
    by_cases h4 : c = '\t'
    · subst h4
      have e : escCharL '\t' = ['\\', 't'] := by decide
      rw [e]
      simp only [List.cons_append, List.nil_append]
      rw [parseJStr.eq_def]
      simp +decide [unescChar, ih]
    by_cases h5 : c = '\r'
    · subst h5
      have e : escCharL '\r' = ['\\', 'r'] := by decide
      rw [e]
      simp only [List.cons_append, List.nil_append]
      rw [parseJStr.eq_def]
      simp +decide [unescChar, ih]
    by_cases h6 : c = Char.ofNat 8
    · subst h6
      have e : escCharL (Char.ofNat 8) = ['\\', 'b'] := by decide
      rw [e]
      simp only [List.cons_append, List.nil_append]
      rw [parseJStr.eq_def]
      simp +decide [unescChar, ih]
    by_cases h7 : c = Char.ofNat 12
    · subst h7
      have e : escCharL (Char.ofNat 12) = ['\\', 'f'] := by decide
      rw [e]
      simp only [List.cons_append, List.nil_append]
      rw [parseJStr.eq_def]
      simp +decide [unescChar, ih]
    by_cases h8 : c.toNat < 32
    · have e : escCharL c
          = ['\\', 'u', '0', '0', hexDigit (c.toNat / 16), hexDigit (c.toNat % 16)] := by
        simp [escCharL, h1, h2, h3, h4, h5, h6, h7, h8]
      rw [e]
      simp only [List.cons_append, List.nil_append]
      rw [parseJStr.eq_def]
      have h0 : hexVal '0' = some 0 := by decide
      simp only [h0, hexVal_hexDigit _ (show c.toNat / 16 < 16 by omega),
        hexVal_hexDigit _ (show c.toNat % 16 < 16 by omega)]
      simp +decide [ih]
      have h16 : 16 * (c.toNat / 16) + c.toNat % 16 = c.toNat := by omega
      rw [h16, Char.ofNat_toNat]
    · have e : escCharL c = [c] := by
        simp [escCharL, h1, h2, h3, h4, h5, h6, h7, h8]
      rw [e]
      simp only [List.cons_append, List.nil_append]
      rw [parseJStr.eq_def]
      simp [h1, h2, ih]

theorem fV_pos (v : JValue) : 1 ≤ fV v := by
  cases v <;> simp [fV]

theorem fA_pos (xs : JArr) : 1 ≤ fA xs := by
  cases xs with
  | nil => simp [fA]
  | cons v t => cases t <;> simp [fA]

theorem fF_pos (fs : JObj) : 1 ≤ fF fs := by
  cases fs with
  | nil => simp [fF]
  | cons k v t => cases t <;> simp [fF]

theorem numChar_ne {c : Char} (h : isNumChar c = true) (d : Char)
    (hd : isNumChar d = false) : ¬ c = d := by
  intro hc
  subst hc
  rw [h] at hd
  cases hd

theorem numChar_not_ws {c : Char} (h : isNumChar c = true) : isWs c = false := by
  simp [isNumChar] at h
  simp [isWs]
  omega

/-- Every dumped value starts with a non-whitespace character that is not a
closing bracket, so the parser dispatch sees it directly. -/
theorem dumpsV_head (v : JValue) (hwf : wfV v = true) :
    ∃ c l, dumpsV v = c :: l ∧ isWs c = false ∧ ¬ c = ']' := by
  cases v with
  | null => exact ⟨'n', _, rfl, by decide, by decide⟩
  | bool b => cases b with
    | true => exact ⟨'t', _, rfl, by decide, by decide⟩
    | false => exact ⟨'f', _, rfl, by decide, by decide⟩
  | num lit =>
    cases hd : lit.data with
    | nil => rw [wfV, hd] at hwf; simp at hwf
    | cons c0 ds =>
      have hall : isNumChar c0 = true := by
        rw [wfV, hd] at hwf
        simp only [List.all_cons, Bool.and_eq_true] at hwf
        exact hwf.2.1
      exact ⟨c0, ds, by rw [dumpsV, hd], numChar_not_ws hall,
        numChar_ne hall ']' (by decide)⟩
  | str s => exact ⟨'"', _, rfl, by decide, by decide⟩
  | arr xs => exact ⟨'[', _, rfl, by decide, by decide⟩
  | obj fs => exact ⟨'{', _, rfl, by decide, by decide⟩

theorem takeWhile_all_app (p : Char → Bool) (l r : List Char)
    (h : l.all p = true) : (l ++ r).takeWhile p = l ++ r.takeWhile p := by
  induction l with
  | nil => simp
  | cons c t ih =>
    simp only [List.all_cons, Bool.and_eq_true] at h
    simp [List.takeWhile_cons, h.1, ih h.2]

theorem dropWhile_all_app (p : Char → Bool) (l r : List Char)
    (h : l.all p = true) : (l ++ r).dropWhile p = r.dropWhile p := by
  induction l with
  | nil => simp
  | cons c t ih =>
    simp only [List.all_cons, Bool.and_eq_true] at h
    simp [List.dropWhile_cons, h.1, ih h.2]

theorem takeWhile_numSafe (r : List Char) (h : numSafeB r = true) :
    r.takeWhile isNumChar = [] := by
  cases r with
  | nil => simp
  | cons c t =>
    simp [numSafeB] at h
    simp [List.takeWhile_cons, h]

theorem dropWhile_numSafe (r : List Char) (h : numSafeB r = true) :
    r.dropWhile isNumChar = r := by
  cases r with
  | nil => simp
  | cons c t =>
    simp [numSafeB] at h
    simp [List.dropWhile_cons, h]

theorem jparseElems_cons (n : Nat) (c : Char) (r : List Char)
    (hws : isWs c = false) (hc : ¬ c = ']') :
    jparseElems (n + 1) (c :: r)
      = match jparseV n (c :: r) with
        | none => none
        | some (v, r1) =>
          match skipWs r1 with
          | ',' :: r2 => (jparseElems n r2).map (fun p => (JArr.cons v p.1, p.2))
          | ']' :: r2 => some (JArr.cons v JArr.nil, r2)
          | _ => none := by
  simp only [jparseElems]
  rw [skipWs_cons _ _ hws]
  simp [hc]

theorem jparseV_drop_space (n : Nat) (l : List Char) :
    jparseV n (' ' :: l) = jparseV n l :=
  jparseV_skip n _ _ (by rw [skipWs_ws _ _ (by decide)])

theorem jparseElems_drop_space (n : Nat) (l : List Char) :
    jparseElems n (' ' :: l) = jparseElems n l :=
  jparseElems_skip n _ _ (by rw [skipWs_ws _ _ (by decide)])

theorem jparseFields_drop_space (n : Nat) (l : List Char) :
    jparseFields n (' ' :: l) = jparseFields n l :=
  jparseFields_skip n _ _ (by rw [skipWs_ws _ _ (by decide)])

theorem skipWs_comma (l : List Char) : skipWs (',' :: l) = ',' :: l :=
  skipWs_cons _ _ (by decide)

theorem skipWs_colon (l : List Char) : skipWs (':' :: l) = ':' :: l :=
  skipWs_cons _ _ (by decide)

theorem skipWs_rbrack (l : List Char) : skipWs (']' :: l) = ']' :: l :=
  skipWs_cons _ _ (by decide)

theorem skipWs_rbrace (l : List Char) : skipWs ('}' :: l) = '}' :: l :=
  skipWs_cons _ _ (by decide)

/-- Round trip of the JSON layer: with fuel at least the value's measure,
reparsing a dumped document yields exactly the dumped value and the
untouched remainder. -/
theorem jparse_dumps : ∀ n : Nat,
    (∀ v rest, wfV v = true → numSafeB rest = true → fV v ≤ n →
      jparseV n (dumpsV v ++ rest) = some (v, rest)) ∧
    (∀ xs rest, wfA xs = true → fA xs ≤ n →
      jparseElems n (dumpsA xs ++ rest) = some (xs, rest)) ∧
    (∀ fs rest, wfF fs = true → fF fs ≤ n →
      jparseFields n (dumpsF fs ++ rest) = some (fs, rest)) := by
  intro n
  induction n with
  | zero =>
    refine ⟨fun v _ _ _ hf => absurd hf (by have := fV_pos v; omega),
      fun xs _ _ hf => absurd hf (by have := fA_pos xs; omega),
      fun fs _ _ hf => absurd hf (by have := fF_pos fs; omega)⟩
  | succ n ih =>
    obtain ⟨ihV, ihA, ihF⟩ := ih
    refine ⟨?_, ?_, ?_⟩
    · intro v rest hwf hns hfu
      cases v with
      | null =>
        show jparseV (n + 1) ('n' :: 'u' :: 'l' :: 'l' :: rest) = some (JValue.null, rest)
        simp only [jparseV]
        rw [skipWs_cons _ _ (by decide)]
        simp +decide
      | bool b =>
        cases b with
        | true =>
          show jparseV (n + 1) ('t' :: 'r' :: 'u' :: 'e' :: rest)
              = some (JValue.bool true, rest)
          simp only [jparseV]
          rw [skipWs_cons _ _ (by decide)]
          simp +decide
        | false =>
          show jparseV (n + 1) ('f' :: 'a' :: 'l' :: 's' :: 'e' :: rest)
              = some (JValue.bool false, rest)
          simp only [jparseV]
          rw [skipWs_cons _ _ (by decide)]
          simp +decide
      | num lit =>
        rw [wfV] at hwf
        cases hd : lit.data with
        | nil => rw [hd] at hwf; simp at hwf
        | cons c0 ds =>
          rw [hd] at hwf
          simp only [Bool.and_eq_true, List.all_cons] at hwf
          obtain ⟨-, hc0, hds⟩ := hwf
          have hgoal : dumpsV (JValue.num lit) ++ rest = c0 :: (ds ++ rest) := by
            rw [dumpsV, hd]; rfl
          rw [hgoal]
          simp only [jparseV]
          rw [skipWs_cons _ _ (numChar_not_ws hc0)]
          simp only []
          rw [if_neg (numChar_ne hc0 '"' (by decide)),
              if_neg (numChar_ne hc0 '{' (by decide)),
              if_neg (numChar_ne hc0 '[' (by decide)),
              if_neg (numChar_ne hc0 't' (by decide)),
              if_neg (numChar_ne hc0 'f' (by decide)),
              if_neg (numChar_ne hc0 'n' (by decide)),
              if_pos hc0]
          have hall : (c0 :: ds).all isNumChar = true := by
            simp only [List.all_cons, Bool.and_eq_true]
            exact ⟨hc0, hds⟩
          have ht : (c0 :: (ds ++ rest)).takeWhile isNumChar = c0 :: ds := by
            rw [show c0 :: (ds ++ rest) = (c0 :: ds) ++ rest from rfl,
              takeWhile_all_app _ _ _ hall, takeWhile_numSafe rest hns, List.append_nil]
          have hdr : (c0 :: (ds ++ rest)).dropWhile isNumChar = rest := by
            rw [show c0 :: (ds ++ rest) = (c0 :: ds) ++ rest from rfl,
              dropWhile_all_app _ _ _ hall, dropWhile_numSafe rest hns]
          rw [ht, hdr, ← hd, string_mk_data]
      | str s =>
        have hgoal : dumpsV (JValue.str s) ++ rest
            = '"' :: (escStrL s.data ++ '"' :: rest) := by
          rw [dumpsV]; simp [List.append_assoc]
        rw [hgoal]
        simp only [jparseV]
        rw [skipWs_cons _ _ (by decide)]
        simp only [if_true]
        rw [parseJStr_esc]
        simp [string_mk_data]
      | arr xs =>
        have hgoal : dumpsV (JValue.arr xs) ++ rest = '[' :: (dumpsA xs ++ rest) := by
          rw [dumpsV]; rfl
        rw [hgoal]
        simp only [jparseV]
        rw [skipWs_cons _ _ (by decide)]
        simp only [if_true]
        rw [ihA xs rest (by rwa [wfV] at hwf) (by rw [fV] at hfu; omega)]
        rfl
      | obj fs =>
        have hgoal : dumpsV (JValue.obj fs) ++ rest = '{' :: (dumpsF fs ++ rest) := by
          rw [dumpsV]; rfl
        rw [hgoal]
        simp only [jparseV]
        rw [skipWs_cons _ _ (by decide)]
        simp only [if_true]
        rw [ihF fs rest (by rwa [wfV] at hwf) (by rw [fV] at hfu; omega)]
        rfl
    · intro xs rest hwf hfu
      cases xs with
      | nil =>
        show jparseElems (n + 1) (']' :: rest) = some (JArr.nil, rest)
        simp only [jparseElems]
        rw [skipWs_cons _ _ (by decide)]
        simp
      | cons v t =>
        rw [wfA] at hwf
        simp only [Bool.and_eq_true] at hwf
        obtain ⟨hwv, hwt⟩ := hwf
        obtain ⟨c0, l0, hdv, hws0, hc0⟩ := dumpsV_head v hwv
        cases t with
        | nil =>
          have hgoal : dumpsA (JArr.cons v JArr.nil) ++ rest
              = dumpsV v ++ (']' :: rest) := by
            rw [dumpsA]; simp [List.append_assoc]
          rw [hgoal, hdv, List.cons_append, jparseElems_cons n c0 _ hws0 hc0,
            ← List.cons_append, ← hdv]
          have hfv : fV v ≤ n := by simp only [fA] at hfu; omega
          rw [ihV v (']' :: rest) hwv (by rfl) hfv]
          simp only []
          rw [skipWs_rbrack]
          rfl
        | cons w t2 =>
          have hgoal : dumpsA (JArr.cons v (JArr.cons w t2)) ++ rest
              = dumpsV v ++ (',' :: ' ' :: (dumpsA (JArr.cons w t2) ++ rest)) := by
            rw [dumpsA]; simp [List.append_assoc]
          rw [hgoal, hdv, List.cons_append, jparseElems_cons n c0 _ hws0 hc0,
            ← List.cons_append, ← hdv]
          have hfv : fV v ≤ n := by
            simp only [fA] at hfu
            have := fA_pos (JArr.cons w t2)
            omega
          have hft : fA (JArr.cons w t2) ≤ n := by
            simp only [fA] at hfu
            have := fV_pos v
            omega
          rw [ihV v _ hwv (by rfl) hfv]
          simp only []
          rw [skipWs_comma]
          simp [jparseElems_drop_space, ihA (JArr.cons w t2) rest hwt hft]
    · intro fs rest hwf hfu
      cases fs with
      | nil =>
        show jparseFields (n + 1) ('}' :: rest) = some (JObj.nil, rest)
        simp only [jparseFields]
        rw [skipWs_cons _ _ (by decide)]
        simp
      | cons k v t =>
        rw [wfF] at hwf
        simp only [Bool.and_eq_true] at hwf
        obtain ⟨hwv, hwt⟩ := hwf
        cases t with
        | nil =>
          have hgoal : dumpsF (JObj.cons k v JObj.nil) ++ rest
              = '"' :: (escStrL k.data ++ '"' :: (':' :: ' ' :: (dumpsV v ++ '}' :: rest))) := by
            rw [dumpsF]; simp [List.append_assoc]
          rw [hgoal]
          simp only [jparseFields]
          rw [skipWs_cons _ _ (by decide)]
          simp only [if_true]
          rw [parseJStr_esc]
          simp only []
          rw [skipWs_colon]
          have hfv : fV v ≤ n := by simp only [fF] at hfu; omega
          simp [jparseV_drop_space, ihV v ('}' :: rest) hwv (by rfl) hfv,
            skipWs_rbrace, string_mk_data]
        | cons k2 w t2 =>
          have hgoal : dumpsF (JObj.cons k v (JObj.cons k2 w t2)) ++ rest
              = '"' :: (escStrL k.data ++ '"' :: (':' :: ' ' ::
                  (dumpsV v ++ ',' :: ' ' :: (dumpsF (JObj.cons k2 w t2) ++ rest)))) := by
            rw [dumpsF]; simp [List.append_assoc]
          rw [hgoal]
          simp only [jparseFields]
          rw [skipWs_cons _ _ (by decide)]
          simp only [if_true]
          rw [parseJStr_esc]
          simp only []
          rw [skipWs_colon]
          have hfv : fV v ≤ n := by
            simp only [fF] at hfu
            have := fF_pos (JObj.cons k2 w t2)
            omega
          have hft : fF (JObj.cons k2 w t2) ≤ n := by
            simp only [fF] at hfu
            have := fV_pos v
            omega
          simp only [jparseV_drop_space, string_mk_data]
          rw [ihV v (',' :: ' ' :: (dumpsF (JObj.cons k2 w t2) ++ rest)) hwv (by rfl) hfv]
          simp only []
          rw [skipWs_comma]
          simp [jparseFields_drop_space,
            ihF (JObj.cons k2 w t2) rest hwt hft, string_mk_data]

/- Enough fuel for reparsing is always available from the document length. -/
mutual

theorem fV_le (v : JValue) : fV v ≤ (dumpsV v).length + 1 := by
  cases v with
  | null => simp [fV, dumpsV]
  | bool b => cases b <;> simp [fV, dumpsV]
  | num lit => simp [fV, dumpsV]
  | str s => simp [fV, dumpsV]
  | arr xs =>
    have h := fA_le xs
    simp only [fV, dumpsV, List.length_cons]
    omega
  | obj fs =>
    have h := fF_le fs
    simp only [fV, dumpsV, List.length_cons]
    omega

theorem fA_le (xs : JArr) : fA xs ≤ (dumpsA xs).length + 1 := by
  cases xs with
  | nil => simp [fA, dumpsA]
  | cons v t =>
    have hv := fV_le v
    cases t with
    | nil =>
      simp only [fA, dumpsA, List.length_append, List.length_cons, List.length_nil]
      omega
    | cons w t2 =>
      have ht := fA_le (JArr.cons w t2)
      simp only [fA, dumpsA, List.length_append, List.length_cons, List.length_nil]
      omega

theorem fF_le (fs : JObj) : fF fs ≤ (dumpsF fs).length + 1 := by
  cases fs with
  | nil => simp [fF, dumpsF]
  | cons k v t =>
    have hv := fV_le v
    cases t with
    | nil =>
      simp only [fF, dumpsF, List.length_append, List.length_cons, List.length_nil]
      omega
    | cons k2 w t2 =>
      have ht := fF_le (JObj.cons k2 w t2)
      simp only [fF, dumpsF, List.length_append, List.length_cons, List.length_nil]
      omega

end

/-- `json.loads` inverts `json.dumps` on every well-formed document. -/
theorem jsonFull_dumps (v : JValue) (hwf : wfV v = true) :
    jsonFull (dumpsStr v) = some v := by
  rw [jsonFull, dumpsStr]
  have hdata : (String.mk (dumpsV v)).data = dumpsV v := rfl
  rw [hdata]
  have hfuel : fV v ≤ (dumpsV v).length + 1 := fV_le v
  have h := (jparse_dumps ((dumpsV v).length + 1)).1 v [] hwf (by rfl) hfuel
  rw [List.append_nil] at h
  rw [h]
  rfl

theorem hexDigit_ne_nl (n : Nat) : ¬ hexDigit n = '\n' := by
  unfold hexDigit
  split <;> decide

theorem escCharL_no_nl (c : Char) : '\n' ∉ escCharL c := by
  unfold escCharL
  split_ifs with h1 h2 h3 h4 h5 h6 h7 h8
  · decide
  · decide
  · decide
  · decide
  · decide
  · decide
  · decide
  · intro hmem
    simp only [List.mem_cons, List.not_mem_nil, or_false] at hmem
    rcases hmem with h | h | h | h | h | h
    · exact absurd h (by decide)
    · exact absurd h (by decide)
    · exact absurd h (by decide)
    · exact absurd h (by decide)
    · exact hexDigit_ne_nl _ h.symm
    · exact hexDigit_ne_nl _ h.symm
  · intro hmem
    simp only [List.mem_cons, List.not_mem_nil, or_false] at hmem
    have : c.toNat = 10 := by rw [← hmem]; rfl
    omega

theorem escStrL_no_nl (l : List Char) : '\n' ∉ escStrL l := by
  induction l with
  | nil => simp [escStrL]
  | cons c cs ih =>
    simp only [escStrL, List.mem_append]
    intro hmem
    rcases hmem with h | h
    · exact escCharL_no_nl c h
    · exact ih h

/- The serialized form of any value occupies a single physical line: no
newline character ever appears in `json.dumps` output. -/
mutual

theorem dumpsV_no_nl (v : JValue) (hwf : wfV v = true) : '\n' ∉ dumpsV v := by
  cases v with
  | null => decide
  | bool b => cases b <;> decide
  | num lit =>
    intro hmem
    rw [dumpsV] at hmem
    rw [wfV] at hwf
    simp only [Bool.and_eq_true, List.all_eq_true] at hwf
    have := hwf.2 _ hmem
    have h10 : ('\n').toNat = 10 := rfl
    simp [isNumChar, h10] at this
  | str s =>
    intro hmem
    rw [dumpsV] at hmem
    simp only [List.mem_cons, List.mem_append] at hmem
    rcases hmem with h | h | h
    · exact absurd h (by decide)
    · exact escStrL_no_nl _ h
    · simp at h
  | arr xs =>
    intro hmem
    rw [dumpsV] at hmem
    simp only [List.mem_cons] at hmem
    rcases hmem with h | h
    · exact absurd h (by decide)
    · exact dumpsA_no_nl xs (by rwa [wfV] at hwf) h
  | obj fs =>
    intro hmem
    rw [dumpsV] at hmem
    simp only [List.mem_cons] at hmem
    rcases hmem with h | h
    · exact absurd h (by decide)
    · exact dumpsF_no_nl fs (by rwa [wfV] at hwf) h

theorem dumpsA_no_nl (xs : JArr) (hwf : wfA xs = true) : '\n' ∉ dumpsA xs := by
  cases xs with
  | nil => decide
  | cons v t =>
    rw [wfA] at hwf
    simp only [Bool.and_eq_true] at hwf
    cases t with
    | nil =>
      intro hmem
      rw [dumpsA] at hmem
      simp only [List.mem_append, List.mem_cons, List.not_mem_nil, or_false] at hmem
      rcases hmem with h | h
      · exact dumpsV_no_nl v hwf.1 h
      · exact absurd h (by decide)
    | cons w t2 =>
      intro hmem
      rw [dumpsA] at hmem
      simp only [List.mem_append, List.mem_cons] at hmem
      rcases hmem with h | h | h | h
      · exact dumpsV_no_nl v hwf.1 h
      · exact absurd h (by decide)
      · exact absurd h (by decide)
      · exact dumpsA_no_nl (JArr.cons w t2) hwf.2 h

theorem dumpsF_no_nl (fs : JObj) (hwf : wfF fs = true) : '\n' ∉ dumpsF fs := by
  cases fs with
  | nil => decide
  | cons k v t =>
    rw [wfF] at hwf
    simp only [Bool.and_eq_true] at hwf
    cases t with
    | nil =>
      intro hmem
      rw [dumpsF] at hmem
      simp only [List.mem_cons, List.mem_append, List.not_mem_nil, or_false] at hmem
      rcases hmem with h | h | h | h | h | h
      · exact absurd h (by decide)
      · exact escStrL_no_nl _ h
      · exact absurd h (by decide)
      · exact absurd h (by decide)
      · exact absurd h (by decide)
      · rcases h with h | h
        · exact dumpsV_no_nl v hwf.1 h
        · simp at h
    | cons k2 w t2 =>
      intro hmem
      rw [dumpsF] at hmem
      simp only [List.mem_cons, List.mem_append] at hmem
      rcases hmem with h | h | h | h | h | h
      · exact absurd h (by decide)
      · exact escStrL_no_nl _ h
      · exact absurd h (by decide)
      · exact absurd h (by decide)
      · exact absurd h (by decide)
      · rcases h with h | h | h | h
        · exact dumpsV_no_nl v hwf.1 h
        · exact absurd h (by decide)
        · exact absurd h (by decide)
        · exact dumpsF_no_nl (JObj.cons k2 w t2) hwf.2 h

end

/-! ## Taxonomy model

The "classification system" the program manipulates is a nested Python
dict `label → {"description": str, "children": <same shape>}` (built by
`create_classification_system` or loaded from a config file).  `TaxForest`
is this dictionary shape; `forestToJson` is its identity embedding into the
JSON document space used by `json.dumps`/`json.loads` (lines 189 and 203 of
`streamlit_app.py`). -/

mutual

inductive TaxNode where
  | mk (description : String) (children : TaxForest) : TaxNode

inductive TaxForest where
  | nil : TaxForest
  | cons (label : String) (node : TaxNode) (tl : TaxForest) : TaxForest

end

mutual

def nodeToJson : TaxNode → JValue
  | .mk desc ch => JValue.obj (.cons "description" (.str desc)
      (.cons "children" (.obj (forestToFields ch)) .nil))

def forestToFields : TaxForest → JObj
  | .nil => .nil
  | .cons label node t => .cons label (nodeToJson node) (forestToFields t)

end

/-- The taxonomy document as a JSON value (the shape serialized by
`json.dumps(classification_system, ...)` at line 203). -/
def forestToJson (f : TaxForest) : JValue := JValue.obj (forestToFields f)

/- Reading the nested `label → {description, children}` document back into
the tree; `none` on any value that is not exactly of the serialized shape. -/
mutual

def nodeFromJson : JValue → Option TaxNode
  | .obj (.cons "description" (.str d) (.cons "children" (.obj chf) .nil)) =>
      (fieldsToForest chf).map (fun ch => TaxNode.mk d ch)
  | _ => none

def fieldsToForest : JObj → Option TaxForest
  | .nil => some .nil
  | .cons label v t =>
      match nodeFromJson v, fieldsToForest t with
      | some nd, some rest => some (.cons label nd rest)
      | _, _ => none

end

def jsonToForest : JValue → Option TaxForest
  | .obj fs => fieldsToForest fs
  | _ => none

mutual

theorem nodeFromJson_rt (nd : TaxNode) : nodeFromJson (nodeToJson nd) = some nd := by
  cases nd with
  | mk d ch =>
    rw [nodeToJson, nodeFromJson]
    rw [fieldsToForest_rt ch]
    rfl

theorem fieldsToForest_rt (f : TaxForest) :
    fieldsToForest (forestToFields f) = some f := by
  cases f with
  | nil => rfl
  | cons label nd t =>
    rw [forestToFields, fieldsToForest]
    rw [nodeFromJson_rt nd, fieldsToForest_rt t]

end

/-- Loading the serialized taxonomy reconstructs the tree exactly,
including child order at every level. -/
theorem jsonToForest_rt (f : TaxForest) :
    jsonToForest (forestToJson f) = some f := by
  rw [forestToJson, jsonToForest]
  exact fieldsToForest_rt f

mutual

theorem nodeToJson_wf (nd : TaxNode) : wfV (nodeToJson nd) = true := by
  cases nd with
  | mk d ch =>
    rw [nodeToJson]
    rw [wfV, wfF, wfF, wfF]
    simp [wfV, forestToFields_wf ch]

theorem forestToFields_wf (f : TaxForest) : wfF (forestToFields f) = true := by
  cases f with
  | nil => rfl
  | cons label nd t =>
    rw [forestToFields, wfF]
    simp [nodeToJson_wf nd, forestToFields_wf t]

end

theorem forestToJson_wf (f : TaxForest) : wfV (forestToJson f) = true := by
  rw [forestToJson, wfV]
  exact forestToFields_wf f

/-- Labels of the top-level entries of a forest. -/
def labelsOf : TaxForest → List String
  | .nil => []
  | .cons l _ t => l :: labelsOf t

/- Python dicts cannot carry two identical keys, so sibling labels in any
taxonomy value the program can hold are pairwise distinct. -/
mutual

def nodupSibN : TaxNode → Bool
  | .mk _ ch => nodupSibF ch

def nodupSibF : TaxForest → Bool
  | .nil => true
  | .cons l nd t => !(labelsOf t).contains l && nodupSibN nd && nodupSibF t

end

/-! ## Prompt rendering (`format_classification_system`, lines 84-94, and
the message texts of `create_batch_jsonl`, lines 96-171) -/

def indentOf (level : Nat) : String := String.join (List.replicate (level - 1) "  ")

def branchOf (level : Nat) : String := if 1 < level then "├─ " else ""

def childPrefixAdd (level : Nat) : String := if 1 < level then "│  " else "  "

/- `format_classification_system(system_dict, level, prefix)` on a
well-formed taxonomy: one line per node, `indent ++ branch ++ label ++
"：" ++ description`; children are rendered (level+1, extended prefix)
right after their parent iff the children dict is truthy (non-empty).  The
`prefix` argument is threaded exactly as in the source, although the
source never uses it in any emitted line. -/
mutual

def formatNode (label : String) (nd : TaxNode) (level : Nat) (pfx : String) :
    List String :=
  match nd with
  | .mk desc ch =>
    (indentOf level ++ branchOf level ++ label ++ "：" ++ desc) ::
      (match ch with
       | .nil => []
       | .cons l2 n2 t2 =>
         formatForest (.cons l2 n2 t2) (level + 1) (pfx ++ childPrefixAdd level))

def formatForest (f : TaxForest) (level : Nat) (pfx : String) : List String :=
  match f with
  | .nil => []
  | .cons label nd t => formatNode label nd level pfx ++ formatForest t level pfx

end

/-- The fixed system message of every request (lines 128-133), verbatim
from the triple-quoted source literal, indentation included. -/
def systemContent : String :=
  "你是一个电动工具领域专利文本分类专家。\n                        你需要对专利文本进行多层级分类，遵循以下原则：\n                        1. 必须从第一级开始，逐级进行分类\n                        2. 每个下级分类必须属于其上级分类\n                        3. 对每个分类选择都需要给出具体理由\n                        4. 如果某个层级无法确定分类，请说明原因"

/-- User-message text before `{system_description}` (line 137 onward). -/
def userPre : String :=
  "\n                        请根据以下分类体系对专利文本进行分类：\n\n                        "

/-- User-message text between `{system_description}` and `{row['摘要']}`. -/
def userMid : String :=
  "\n                        \n                        专利摘要："

/-- User-message text after the abstract, with the `{{`/`}}` escapes of the
source f-string already collapsed to single braces. -/
def userPost : String :=
  "\n                        \n                        请以JSON格式返回，格式如下：\n                        \x7b\n                            \"classification_path\": [\n                                \x7b\n                                    \"level\": 1,\n                                    \"category\": \"一级分类名称\",\n                                    \"confidence\": \"分类确信度(0-1)\",\n                                    \"reason\": \"选择该分类的具体理由\"\n                                \x7d,\n                                \x7b\n                                    \"level\": 2,\n                                    \"category\": \"二级分类名称\",\n                                    \"confidence\": \"分类确信度(0-1)\",\n                                    \"reason\": \"选择该分类的具体理由\"\n                                \x7d,\n                                ...\n                            ],\n                            \"overall_analysis\": \"整体分类逻辑说明\"\n                        \x7d\n                        "

/-- `system_description` of `create_batch_jsonl` (line 101). -/
def systemDescription (f : TaxForest) : String :=
  "分类体系层级结构：\n" ++ String.intercalate "\n" (formatForest f 1 "")

/-- The user-message content for one record (lines 137-163). -/
def userContent (f : TaxForest) (text : String) : String :=
  userPre ++ systemDescription f ++ userMid ++ text ++ userPost

/-! ## Request builder (`create_batch_jsonl`, lines 96-171) -/

/-- `df.iterrows()` over the `摘要` column of a freshly read sheet: the
index is the 0-based original row position. -/
def enumFrom {α : Type} : Nat → List α → List (Nat × α)
  | _, [] => []
  | i, x :: xs => (i, x) :: enumFrom (i + 1) xs

/-- The request object built for row `idx` (lines 119-168): key order,
fixed method/url/model/temperature, and the two rendered messages. -/
def requestJson (idx : Nat) (text : String) (f : TaxForest) : JValue :=
  JValue.obj
    (JObj.cons "custom_id" (JValue.str ("request-" ++ toString idx))
      (JObj.cons "method" (JValue.str "POST")
        (JObj.cons "url" (JValue.str "/v4/chat/completions")
          (JObj.cons "body"
            (JValue.obj
              (JObj.cons "model" (JValue.str "glm-4")
                (JObj.cons "messages"
                  (JValue.arr
                    (JArr.cons
                      (JValue.obj (JObj.cons "role" (JValue.str "system")
                        (JObj.cons "content" (JValue.str systemContent) JObj.nil)))
                      (JArr.cons
                        (JValue.obj (JObj.cons "role" (JValue.str "user")
                          (JObj.cons "content" (JValue.str (userContent f text)) JObj.nil)))
                        JArr.nil)))
                  (JObj.cons "temperature" (JValue.num "0.1") JObj.nil))))
            JObj.nil))))

/-- The sequence of requests emitted by the loop at lines 118-169: one per
row of the input, in row order, with no filtering of any kind. -/
def buildRequests (records : List String) (f : TaxForest) : List JValue :=
  (enumFrom 0 records).map (fun p => requestJson p.1 p.2 f)

/-- The jsonl payload (`jsonl_content.getvalue()`): each request serialized
by `json.dumps(request, ensure_ascii=False)` followed by `'\n'`. -/
def createBatchJsonl (records : List String) (f : TaxForest) : String :=
  String.join ((enumFrom 0 records).map
    (fun p => dumpsStr (requestJson p.1 p.2 f) ++ "\n"))

/-- `build_path_mapping` (lines 104-116): label → (path from root,
description).  It is computed by `create_batch_jsonl` and then never read;
duplicate labels on different branches overwrite in the Python dict, here
they simply accumulate in source order. -/
def buildPathMapping : TaxForest → List String → List (String × (List String × String))
  | .nil, _ => []
  | .cons label (.mk desc ch) t, cur =>
      (label, (cur ++ [label], desc)) ::
        ((match ch with
          | .nil => []
          | .cons l2 n2 t2 => buildPathMapping (.cons l2 n2 t2) (cur ++ [label]))
          ++ buildPathMapping t cur)

theorem enumFrom_length {α : Type} (i : Nat) (l : List α) :
    (enumFrom i l).length = l.length := by
  induction l generalizing i with
  | nil => rfl
  | cons x xs ih => simp [enumFrom, ih]

theorem enumFrom_get {α : Type} (i : Nat) (l : List α) (j : Nat) (h : j < l.length) :
    (enumFrom i l).get ⟨j, by rw [enumFrom_length]; exact h⟩
      = (i + j, l.get ⟨j, h⟩) := by
  induction l generalizing i j with
  | nil => exact absurd h (by simp)
  | cons x xs ih =>
    cases j with
    | zero => simp [enumFrom]
    | succ j =>
      have h' : j < xs.length := by simpa using h
      have := ih (i + 1) j h'
      simp only [enumFrom, List.get_cons_succ]
      rw [this]
      congr 1
      omega

theorem requestJson_wf (idx : Nat) (text : String) (f : TaxForest) :
    wfV (requestJson idx text f) = true := by
  rw [requestJson]
  simp +decide [wfV, wfF, wfA]

/-! ## Config loading (`main`, lines 187-195)

`json.loads` performs no structural validation; the only thing that can
reject a loaded config is the preview rendering
`format_classification_system(classification_system)` raising inside the
same `try` block (`KeyError` on a missing key, `TypeError`/`AttributeError`
on non-dict values).  The functions below replay that traversal on an
arbitrary loaded JSON value; `none` means "an exception was raised, the
error path of lines 193-195 runs, and the config is discarded". -/

def pyLookup : JObj → String → Option JValue
  | .nil, _ => none
  | .cons k v t, key => if k = key then some v else pyLookup t key

/- Python truthiness of a loaded JSON value (`if data['children']:`).
For numbers the literal is scanned for a nonzero digit, which matches
float truthiness on every numeral the program can meet here. -/
def pyTruthy : JValue → Bool
  | .null => false
  | .bool b => b
  | .num lit => lit.data.any (fun c => 49 ≤ c.toNat && c.toNat ≤ 57)
  | .str s => !s.data.isEmpty
  | .arr .nil => false
  | .arr (.cons _ _) => true
  | .obj .nil => false
  | .obj (.cons _ _ _) => true

/- Python `str()` of a loaded JSON value, as interpolated into the
rendered line.  Exact for strings (the only case a well-formed taxonomy
produces); collection and numeral rendering approximate `repr`, and no
claim depends on those texts, only on the traversal succeeding. -/
mutual

def pyRepr : JValue → String
  | .null => "None"
  | .bool true => "True"
  | .bool false => "False"
  | .num lit => lit
  | .str s => "'" ++ s ++ "'"
  | .arr xs => "[" ++ pyReprA xs ++ "]"
  | .obj fs => "\x7b" ++ pyReprF fs ++ "\x7d"

def pyReprA : JArr → String
  | .nil => ""
  | .cons v .nil => pyRepr v
  | .cons v (.cons w t) => pyRepr v ++ ", " ++ pyReprA (.cons w t)

def pyReprF : JObj → String
  | .nil => ""
  | .cons k v .nil => "'" ++ k ++ "': " ++ pyRepr v
  | .cons k v (.cons k2 w t) =>
      "'" ++ k ++ "': " ++ pyRepr v ++ ", " ++ pyReprF (.cons k2 w t)

end

def pyStr : JValue → String
  | .str s => s
  | v => pyRepr v

/- One pass of `format_classification_system` over the items of a loaded
dict: `data['description']` (KeyError/TypeError → `none`), the rendered
line, `data['children']` (KeyError → `none`), recursion into truthy
children (`.items()` on a truthy non-dict → `none`).  `renderChildren`
walks the same dict entry the `data['children']` lookup finds (first
match) and recurses into it when it is a dict. -/
mutual

def pyFormatItems : JObj → Nat → Option (List String)
  | .nil, _ => some []
  | .cons label data t, level =>
    match data with
    | .obj dfs =>
      match pyLookup dfs "description" with
      | none => none
      | some dv =>
        match pyLookup dfs "children" with
        | none => none
        | some cv =>
          if pyTruthy cv then
            match renderChildren dfs (level + 1), pyFormatItems t level with
            | some sub, some rest =>
              some ((indentOf level ++ branchOf level ++ label ++ "：" ++ pyStr dv)
                :: (sub ++ rest))
            | _, _ => none
          else
            match pyFormatItems t level with
            | some rest =>
              some ((indentOf level ++ branchOf level ++ label ++ "：" ++ pyStr dv)
                :: rest)
            | none => none
    | _ => none

def renderChildren : JObj → Nat → Option (List String)
  | .nil, _ => none
  | .cons k v t, level =>
    if k = "children" then
      match v with
      | .obj cfs => pyFormatItems cfs level
      | _ => none
    else renderChildren t level

end

/-- `format_classification_system(classification_system)` on an arbitrary
loaded JSON document (`none` = the call raises). -/
def pyFormatCS (j : JValue) : Option (List String) :=
  match j with
  | .obj fs => pyFormatItems fs 1
  | _ => none

/-- Lines 187-195: a parsed config document is kept iff previewing it does
not raise; otherwise the handler reports a load failure and the config is
discarded. -/
def loadConfig (j : JValue) : Option JValue :=
  if (pyFormatCS j).isSome then some j else none

/-- On a well-formed taxonomy the loaded-dict traversal succeeds and
produces exactly the lines of the typed renderer (for any prefix, which
the renderer never prints). -/
theorem pyFormatItems_forest (f : TaxForest) (level : Nat) (pfx : String) :
    pyFormatItems (forestToFields f) level = some (formatForest f level pfx) := by
  cases f with
  | nil => simp [forestToFields, pyFormatItems, formatForest]
  | cons label nd t =>
    cases nd with
    | mk d ch =>
      have iht := pyFormatItems_forest t level pfx
      cases ch with
      | nil =>
        simp only [forestToFields, nodeToJson, formatForest, formatNode]
        simp +decide [pyFormatItems, pyLookup, pyStr, pyTruthy, iht]
      | cons l2 n2 t2 =>
        have ihc := pyFormatItems_forest (TaxForest.cons l2 n2 t2) (level + 1)
          (pfx ++ childPrefixAdd level)
        simp only [forestToFields, nodeToJson, formatForest, formatNode] at ihc ⊢
        have hT : pyTruthy (JValue.obj (JObj.cons l2 (nodeToJson n2)
            (forestToFields t2))) = true := rfl
        set CF := JObj.cons l2 (nodeToJson n2) (forestToFields t2) with hCF
        clear_value CF
        simp +decide [pyFormatItems, renderChildren, pyLookup, pyStr, hT, iht, ihc]

/-! ## Batch-status polling loop (`main`, lines 262-277)

```
while True:
    status = client.batches.retrieve(batch_id)
    if status.status == "completed": break
    elif status.status in ["failed", "expired", "cancelled"]:
        st.error("处理失败！"); return
    time.sleep(5)
# ... then the output file is downloaded (fetch)
```
`statuses k` is the status string returned by the k-th poll.  The loop has
no deadline of any kind, so it is modelled with explicit fuel: `none`
means the loop is still running after `fuel` polls.  `fetchCalled = true`
records that control reached the download of `status.output_file_id`. -/

def failureMessage : String := "处理失败！"

def isTerminalStatus (s : String) : Bool :=
  s = "completed" || s = "failed" || s = "expired" || s = "cancelled"

def isFailureStatus (s : String) : Bool :=
  s = "failed" || s = "expired" || s = "cancelled"

structure MainResult where
  fetchCalled : Bool
  errorShown : Option String
deriving DecidableEq

def mainAfterSubmit (statuses : Nat → String) : Nat → Option MainResult
  | 0 => none
  | fuel + 1 =>
    if statuses 0 = "completed" then some ⟨true, none⟩
    else if statuses 0 = "failed" ∨ statuses 0 = "expired" ∨ statuses 0 = "cancelled" then
      some ⟨false, some failureMessage⟩
    else mainAfterSubmit (fun n => statuses (n + 1)) fuel

/-! ## Result pipeline

`main` (lines 279-286) reads the downloaded jsonl back and builds

```
results = process_batch_results(f.read())
result_df = pd.DataFrame({'摘要': df['摘要'], '分类结果': results})
```

`process_batch_results` is called here but its definition is absent from
the repository sources; it is modelled below from the spec's ResultParser:
each output line is parsed independently into a ClassificationResult, any
failure sets `parse_error` and keeps the raw line, and nothing ever raises
out of the parser.  The caller hands it only the file text — neither the
index map nor the original rows — so no reconciliation by `custom_id` can
happen here, and the list is in file-line order. -/

def jGet (j : JValue) (key : String) : Option JValue :=
  match j with
  | .obj fs => pyLookup fs key
  | _ => none

def jStrVal : JValue → Option String
  | .str s => some s
  | _ => none

def jarrToList : JArr → List JValue
  | .nil => []
  | .cons v t => v :: jarrToList t

def jFirst : JValue → Option JValue
  | .arr (.cons v _) => some v
  | _ => none

def jArrList : JValue → Option (List JValue)
  | .arr xs => some (jarrToList xs)
  | _ => none

/-- The spec's ClassificationResult: identity, parsed classification path,
summary, and a `parse_error` that keeps the raw line for diagnostics. -/
structure ClassificationResult where
  custom_id : String
  classification_path : List JValue
  summary : String
  parse_error : Option String
  raw : String

def backtick : Char := Char.ofNat 96

def isPrefixL : List Char → List Char → Bool
  | [], _ => true
  | a :: as, hay =>
    match hay with
    | [] => false
    | b :: bs => (a = b : Bool) && isPrefixL as bs

def containsSubL (needle : List Char) : List Char → Bool
  | [] => needle.isEmpty
  | c :: r => isPrefixL needle (c :: r) || containsSubL needle r

/-- `containsSub hay needle`: does `needle` occur in `hay`? -/
def containsSub (hay needle : String) : Bool := containsSubL needle.data hay.data

def trimWsL (l : List Char) : List Char :=
  ((l.dropWhile isWs).reverse.dropWhile isWs).reverse

/-- Modelled from the spec: strip an optional fenced-code marker around the
model's textual content — the opening delimiter line (backticks plus
language tag) and a trailing delimiter — before JSON-parsing the rest. -/
def stripFenceL (l : List Char) : List Char :=
  let t := trimWsL l
  if isPrefixL [backtick, backtick, backtick] t then
    let afterTag := (t.drop 3).dropWhile (fun c => !(c = '\n'))
    let body :=
      match afterTag with
      | '\n' :: r => r
      | other => other
    let rb := (trimWsL body).reverse
    if isPrefixL [backtick, backtick, backtick] rb then
      trimWsL (rb.drop 3).reverse
    else trimWsL body
  else t

def stripFence (s : String) : String := String.mk (stripFenceL s.data)

/-- Modelled from the spec: the model's textual answer, dug out of one
parsed result line at `response.body.choices[0].message.content`. -/
def extractContent (j : JValue) : Option String :=
  ((((jGet j "response").bind (fun b => jGet b "body")).bind
      (fun b => jGet b "choices")).bind jFirst).bind
    (fun m => (jGet m "message").bind (fun mm => (jGet mm "content").bind jStrVal))

/-- Modelled from the spec: the required fields of the classification
payload — `classification_path` (an array) and `summary` (a string);
`none` when either is missing or ill-typed. -/
def extractRequired (payload : JValue) : Option (List JValue × String) :=
  match (jGet payload "classification_path").bind jArrList,
      (jGet payload "summary").bind jStrVal with
  | some path, some summary => some (path, summary)
  | _, _ => none

/-- Modelled from the spec: the ResultParser on one raw output line.
Total; every failure mode — a line that is not JSON, a line without the
response content, content that is not valid JSON even after stripping a
fenced-code marker, or a payload missing required fields — yields a
distinct `parse_error` and keeps the raw line. -/
def parseResultLine (line : String) : ClassificationResult :=
  match jsonFull line with
  | none =>
    { custom_id := "", classification_path := [], summary := ""
      parse_error := some "line is not valid JSON", raw := line }
  | some j =>
    let cid := ((jGet j "custom_id").bind jStrVal).getD ""
    match extractContent j with
    | none =>
      { custom_id := cid, classification_path := [], summary := ""
        parse_error := some "missing response content", raw := line }
    | some content =>
      match jsonFull (stripFence content) with
      | none =>
        { custom_id := cid, classification_path := [], summary := ""
          parse_error := some "content is not valid JSON", raw := line }
      | some payload =>
        match extractRequired payload with
        | some ps =>
          { custom_id := cid, classification_path := ps.1, summary := ps.2
            parse_error := none, raw := line }
        | none =>
          { custom_id := cid, classification_path := [], summary := ""
            parse_error := some "missing required fields", raw := line }

/-- Split file text on newlines, discarding empty chunks. -/
def splitNl : List Char → List (List Char)
  | [] => [[]]
  | c :: r =>
    if c = '\n' then [] :: splitNl r
    else
      match splitNl r with
      | h :: t => (c :: h) :: t
      | [] => [[c]]

def linesOf (s : String) : List String :=
  ((splitNl s.data).filter (fun l => !l.isEmpty)).map String.mk

/-- Modelled from the spec: `process_batch_results(content)` parses each
output line independently, in file order. -/
def processBatchResults (content : String) : List ClassificationResult :=
  (linesOf content).map parseResultLine

/-- Lines 283-286: `pd.DataFrame({'摘要': df['摘要'], '分类结果': results})`
pairs row *i* with the *i*-th element of `results`; pandas raises
`ValueError` (no table at all) when the lengths differ. -/
def resultTable (texts : List String) (results : List ClassificationResult) :
    Option (List (String × ClassificationResult)) :=
  if texts.length = results.length then some (texts.zip results) else none

/-! ## Shared facts about the request builder -/

theorem buildRequests_length (records : List String) (f : TaxForest) :
    (buildRequests records f).length = records.length := by
  simp [buildRequests, enumFrom_length]

theorem buildRequests_get (records : List String) (f : TaxForest) (i : Nat)
    (h : i < records.length) (h2 : i < (buildRequests records f).length) :
    (buildRequests records f).get ⟨i, h2⟩
      = requestJson i (records.get ⟨i, h⟩) f := by
  simp only [buildRequests, List.get_eq_getElem, List.getElem_map]
  have hg := enumFrom_get 0 records i h
  simp only [List.get_eq_getElem] at hg
  rw [hg]
  simp

/-- A concrete taxonomy used in witnesses (the spec's own scenario). -/
def sawForest : TaxForest :=
  .cons "Saws" (.mk "cutting tools"
    (.cons "Circular Saw" (.mk "blade-based" .nil) .nil)) .nil

/-- C1: the claim says blank-text records are never emitted and are marked
"skipped" in an index map.  `create_batch_jsonl` iterates over every row
with no text check of any kind, so the single empty-text record below is
emitted as a full request; and the only mapping the function builds
(`build_path_mapping`) maps labels to paths, never rows to "skipped". -/
theorem c1_counterexample :
    (buildRequests [""] TaxForest.nil).length = 1
    ∧ buildRequests [""] TaxForest.nil = [requestJson 0 "" TaxForest.nil]
    ∧ ("" : String).isEmpty = true
    ∧ buildPathMapping TaxForest.nil [] = [] :=
  ⟨rfl, rfl, rfl, rfl⟩

/-- C1 (amended): the builder emits exactly one request per input row,
unconditionally — blank and empty texts included; nothing is skipped and
no skipped-marker map exists. -/
theorem c1_amended (records : List String) (f : TaxForest) :
    (buildRequests records f).length = records.length
    ∧ ∀ i, ∀ h : i < records.length, ∀ h2 : i < (buildRequests records f).length,
        (buildRequests records f).get ⟨i, h2⟩
          = requestJson i (records.get ⟨i, h⟩) f :=
  ⟨buildRequests_length records f,
   fun i h h2 => buildRequests_get records f i h h2⟩

theorem c1_amended_witness :
    (0 < (["", "text"] : List String).length)
    ∧ (0 < (buildRequests ["", "text"] TaxForest.nil).length)
    ∧ (buildRequests ["", "text"] TaxForest.nil).get ⟨0, by decide⟩
        = requestJson 0 ((["", "text"] : List String).get ⟨0, by decide⟩) TaxForest.nil :=
  ⟨by decide, by decide,
   (c1_amended ["", "text"] TaxForest.nil).2 0 (by decide) (by decide)⟩

/-- C3: every emitted request's `custom_id` is `"request-" ++ i` where `i`
is the row's position in the full input sequence (`df.iterrows()` yields
the 0-based row index of the freshly read sheet, and no row is filtered,
so emitted position and original position coincide). -/
theorem c3_custom_id (records : List String) (f : TaxForest) (i : Nat)
    (h : i < records.length) (h2 : i < (buildRequests records f).length) :
    jGet ((buildRequests records f).get ⟨i, h2⟩) "custom_id"
      = some (JValue.str ("request-" ++ toString i)) := by
  rw [buildRequests_get records f i h h2]
  simp [requestJson, jGet, pyLookup]

theorem c3_custom_id_witness :
    (1 < (["a", "b"] : List String).length)
    ∧ (1 < (buildRequests ["a", "b"] sawForest).length)
    ∧ jGet ((buildRequests ["a", "b"] sawForest).get ⟨1, by decide⟩) "custom_id"
        = some (JValue.str ("request-" ++ toString 1)) :=
  ⟨by decide, by decide,
   c3_custom_id ["a", "b"] sawForest 1 (by decide) (by decide)⟩

/-- C8: prompt rendering is a pure function of the taxonomy and the
record text — the embedding reads no clock, randomness or other state —
so two runs on equal inputs produce byte-identical system and user
prompts. -/
theorem c8_deterministic (f1 f2 : TaxForest) (t1 t2 : String)
    (hf : f1 = f2) (ht : t1 = t2) :
    systemContent = systemContent ∧ userContent f1 t1 = userContent f2 t2 := by
  subst hf
  subst ht
  exact ⟨rfl, rfl⟩

theorem c8_deterministic_witness :
    sawForest = sawForest
    ∧ ("摘要文本" : String) = "摘要文本"
    ∧ (systemContent = systemContent
       ∧ userContent sawForest "摘要文本" = userContent sawForest "摘要文本") :=
  ⟨rfl, rfl, c8_deterministic sawForest sawForest "摘要文本" "摘要文本" rfl rfl⟩

/-- C10: the payload is the concatenation of one serialized request plus
`'\n'` per row; each serialized request contains no newline character (so
it occupies exactly one physical line), and `json.loads` recovers the full
request object from that line alone — for arbitrary record text (newlines,
non-ASCII) and arbitrary taxonomy. -/
theorem c10_jsonl_lines (records : List String) (f : TaxForest) :
    createBatchJsonl records f
      = String.join ((enumFrom 0 records).map
          (fun p => dumpsStr (requestJson p.1 p.2 f) ++ "\n"))
    ∧ ∀ i, ∀ h : i < records.length,
        '\n' ∉ (dumpsStr (requestJson i (records.get ⟨i, h⟩) f)).data
        ∧ jsonFull (dumpsStr (requestJson i (records.get ⟨i, h⟩) f))
            = some (requestJson i (records.get ⟨i, h⟩) f) :=
  ⟨rfl, fun i h =>
    ⟨dumpsV_no_nl _ (requestJson_wf i ((records.get ⟨i, h⟩)) f),
     jsonFull_dumps _ (requestJson_wf i ((records.get ⟨i, h⟩)) f)⟩⟩

theorem c10_jsonl_lines_witness :
    (0 < (["多行\n摘要 éß"] : List String).length)
    ∧ ('\n' ∉ (dumpsStr (requestJson 0 ((["多行\n摘要 éß"] : List String).get ⟨0, by decide⟩)
          sawForest)).data
       ∧ jsonFull (dumpsStr (requestJson 0 ((["多行\n摘要 éß"] : List String).get ⟨0, by decide⟩)
            sawForest))
          = some (requestJson 0 ((["多行\n摘要 éß"] : List String).get ⟨0, by decide⟩) sawForest)) :=
  ⟨by decide, (c10_jsonl_lines ["多行\n摘要 éß"] sawForest).2 0 (by decide)⟩

/-- C4: round trip of the taxonomy through its serialized form.
`serialize` is `json.dumps(classification_system, ensure_ascii=False,
indent=2)` (line 203) and load is `json.loads` (line 189); `indent=2`
only inserts insignificant whitespace that `json.loads` skips, so the
document is modelled in compact form.  The hypothesis records that sibling
labels are distinct — guaranteed for every value the program can hold,
since Python dicts cannot carry duplicate keys — though the round trip
holds without it.  Both layers are covered: the text layer
(`json.loads (json.dumps doc) = doc`) and the tree layer
(`jsonToForest (forestToJson f) = f`, child order included). -/
theorem c4_round_trip (f : TaxForest) (hnodup : nodupSibF f = true) :
    jsonToForest (forestToJson f) = some f
    ∧ jsonFull (dumpsStr (forestToJson f)) = some (forestToJson f) :=
  ⟨jsonToForest_rt f, jsonFull_dumps _ (forestToJson_wf f)⟩

theorem c4_round_trip_witness :
    nodupSibF sawForest = true
    ∧ (jsonToForest (forestToJson sawForest) = some sawForest
       ∧ jsonFull (dumpsStr (forestToJson sawForest)) = some (forestToJson sawForest)) :=
  ⟨by decide, c4_round_trip sawForest (by decide)⟩

def isObjJ : JValue → Bool
  | .obj _ => true
  | _ => false

/-- A config document whose node has a non-object `children` field (an
empty JSON array). -/
def docFalsyChildren : JValue :=
  JValue.obj (.cons "A" (JValue.obj (.cons "description" (.str "d")
    (.cons "children" (JValue.arr .nil) .nil))) .nil)

/-- C9: the claim says loading fails with `MalformedTaxonomy` whenever a
node's `children` is a non-object.  The code performs no validation at
all: `json.loads` accepts any JSON, and a config is only discarded when
the preview rendering raises.  A *falsy* non-object `children` (here `[]`)
never reaches `.items()` because `if data['children']:` skips it, so the
document below is accepted unchanged. -/
theorem c9_counterexample :
    loadConfig docFalsyChildren = some docFalsyChildren
    ∧ jGet ((jGet docFalsyChildren "A").getD JValue.null) "children"
        = some (JValue.arr JArr.nil)
    ∧ isObjJ (JValue.arr JArr.nil) = false :=
  ⟨rfl, rfl, rfl⟩

/-- A node whose `description` key is missing. -/
def docNoDescription : JValue :=
  JValue.obj (.cons "A" (JValue.obj (.cons "children" (JValue.obj .nil) .nil)) .nil)

/-- A node whose `children` is a truthy non-object (a non-empty string). -/
def docTruthyStrChildren : JValue :=
  JValue.obj (.cons "A" (JValue.obj (.cons "description" (.str "d")
    (.cons "children" (.str "oops") .nil))) .nil)

/-- C9 (amended): load performs no structural validation of its own; a
document is rejected (with the generic load error of line 194, not a
`MalformedTaxonomy`) exactly when the preview traversal raises — e.g. a
missing `description`, or a truthy non-object `children` — while every
well-formed taxonomy document is accepted unchanged and falsy non-object
`children` values slip through.  (JSON cannot express cyclic references,
and duplicate keys are collapsed by `json.loads` rather than rejected.) -/
theorem c9_amended :
    (∀ f : TaxForest, loadConfig (forestToJson f) = some (forestToJson f))
    ∧ loadConfig docNoDescription = none
    ∧ loadConfig docTruthyStrChildren = none
    ∧ loadConfig docFalsyChildren = some docFalsyChildren := by
  refine ⟨?_, rfl, rfl, rfl⟩
  intro f
  rw [loadConfig, forestToJson]
  rw [show pyFormatCS (JValue.obj (forestToFields f))
      = pyFormatItems (forestToFields f) 1 from rfl]
  rw [pyFormatItems_forest f 1 ""]
  rfl

/-- C5: the claim says the polling loop stops at a terminal status or at
an overall deadline, failing with `JobTimeout`.  The loop at lines 262-272
has no deadline and no timeout error: on a status stream that never turns
terminal it polls forever (the fuelled model returns no outcome for any
number of iterations). -/
theorem c5_counterexample :
    ¬ ∃ n, (mainAfterSubmit (fun _ => "running") n).isSome = true := by
  rintro ⟨n, hn⟩
  have hnone : ∀ m, mainAfterSubmit (fun _ => "running") m = none := by
    intro m
    induction m with
    | zero => rfl
    | succ m ih =>
      simp +decide only [mainAfterSubmit]
      exact ih
  rw [hnone n] at hn
  cases hn

/-- C5 (amended): the loop terminates exactly by observing a terminal
status — once some poll returns `completed`, `failed`, `expired` or
`cancelled`, the loop stops within that many iterations; there is no
deadline and no `JobTimeout` in the code. -/
theorem c5_amended (statuses : Nat → String) (k : Nat)
    (hterm : isTerminalStatus (statuses k) = true) :
    ∃ n, n ≤ k + 1 ∧ (mainAfterSubmit statuses n).isSome = true := by
  induction k generalizing statuses with
  | zero =>
    refine ⟨1, Nat.le_refl _, ?_⟩
    simp only [isTerminalStatus, Bool.or_eq_true, decide_eq_true_eq] at hterm
    rcases hterm with ((h | h) | h) | h <;> simp +decide [mainAfterSubmit, h]
  | succ k ih =>
    by_cases h0 : statuses 0 = "completed"
    · exact ⟨1, by omega, by simp [mainAfterSubmit, h0]⟩
    by_cases h1 : statuses 0 = "failed" ∨ statuses 0 = "expired" ∨ statuses 0 = "cancelled"
    · exact ⟨1, by omega, by simp [mainAfterSubmit, h0, h1]⟩
    · obtain ⟨n, hn, hs⟩ := ih (fun n => statuses (n + 1)) hterm
      refine ⟨n + 1, by omega, ?_⟩
      simp only [mainAfterSubmit, if_neg h0, if_neg h1]
      exact hs

theorem c5_amended_witness :
    isTerminalStatus ((fun n => if n < 2 then "running" else "completed") 2) = true
    ∧ ∃ n, n ≤ 2 + 1
        ∧ (mainAfterSubmit (fun n => if n < 2 then "running" else "completed") n).isSome
            = true :=
  ⟨by decide, c5_amended (fun n => if n < 2 then "running" else "completed") 2 (by decide)⟩

/-- The spec's own scenario: poll statuses queued, running, running, then
failed. -/
def pollFailSeq : Nat → String :=
  fun n => if n = 0 then "queued" else if n < 3 then "running" else "failed"

/-- C7: the claim says a terminal failure surfaces as `JobFailed` carrying
the job id and status.  On the spec's own scenario the code shows only the
fixed message `处理失败！` (line 269) and returns: the message is a
constant containing no ASCII character at all, hence neither the status
word `"failed"` nor any batch id, and the output file is never fetched
(`fetchCalled = false`). -/
theorem c7_counterexample :
    mainAfterSubmit pollFailSeq 4 = some ⟨false, some failureMessage⟩
    ∧ containsSub failureMessage "failed" = false
    ∧ containsSub failureMessage "batch" = false
    ∧ failureMessage.data.all (fun c => 127 < c.toNat) = true := by
  refine ⟨by decide, by decide, by decide, by decide⟩

/-- C7 (amended): whenever the first terminal status the loop observes is
`failed`, `expired` or `cancelled`, the run stops with the generic
constant error message — carrying neither job id nor status — and the
output is never fetched. -/
theorem c7_amended (statuses : Nat → String) (k : Nat)
    (hfail : isFailureStatus (statuses k) = true)
    (hbefore : ∀ j, j < k → isTerminalStatus (statuses j) = false) :
    ∀ fuel, k < fuel →
      mainAfterSubmit statuses fuel = some ⟨false, some failureMessage⟩ := by
  induction k generalizing statuses with
  | zero =>
    intro fuel hf
    cases fuel with
    | zero => omega
    | succ fuel =>
      simp only [isFailureStatus, Bool.or_eq_true, decide_eq_true_eq] at hfail
      rcases hfail with (h | h) | h <;> simp +decide [mainAfterSubmit, h]
  | succ k ih =>
    intro fuel hf
    cases fuel with
    | zero => omega
    | succ fuel =>
      have h0 := hbefore 0 (by omega)
      simp only [isTerminalStatus, Bool.or_eq_true, decide_eq_true_eq,
        Bool.or_eq_false_iff, decide_eq_false_iff_not] at h0
      obtain ⟨⟨⟨hc, hfa⟩, hex⟩, hca⟩ := h0
      have hno : ¬ (statuses 0 = "failed" ∨ statuses 0 = "expired"
          ∨ statuses 0 = "cancelled") := by
        rintro (h | h | h)
        · exact hfa h
        · exact hex h
        · exact hca h
      simp only [mainAfterSubmit, if_neg hc, if_neg hno]
      exact ih (fun n => statuses (n + 1)) hfail
        (fun j hj => hbefore (j + 1) (by omega)) fuel (by omega)

theorem c7_amended_witness :
    isFailureStatus (pollFailSeq 3) = true
    ∧ (∀ j, j < 3 → isTerminalStatus (pollFailSeq j) = false)
    ∧ 3 < 4
    ∧ mainAfterSubmit pollFailSeq 4 = some ⟨false, some failureMessage⟩ :=
  ⟨by decide, by decide, by decide,
   c7_amended pollFailSeq 3 (by decide) (by decide) 4 (by decide)⟩

/-- Position-indexed entry of a zip. -/
theorem zip_get {α β : Type} (as : List α) (bs : List β) (i : Nat)
    (h1 : i < as.length) (h2 : i < bs.length) (h3 : i < (as.zip bs).length) :
    (as.zip bs).get ⟨i, h3⟩ = (as.get ⟨i, h1⟩, bs.get ⟨i, h2⟩) := by
  induction as generalizing bs i with
  | nil => exact absurd h1 (by simp)
  | cons a as ih =>
    cases bs with
    | nil => exact absurd h2 (by simp)
    | cons b bs =>
      cases i with
      | zero => rfl
      | succ i =>
        have h1' : i < as.length := by simpa using h1
        have h2' : i < bs.length := by simpa using h2
        have h3' : i < (as.zip bs).length := by simpa using h3
        simpa using ih bs i h1' h2' h3'

/-- C2: the claim says the ResultTable always has one entry per input row
with entry *i* corresponding to `InputRecords[i]`, whatever the remote
service returns.  The code pairs rows with parsed result lines purely by
position, and `pd.DataFrame` raises on a length mismatch: when the service
returns no line at all, no table exists. -/
theorem c2_counterexample :
    processBatchResults "" = []
    ∧ resultTable ["一段摘要"] (processBatchResults "") = none :=
  ⟨rfl, rfl⟩

/-- C2 (amended): the table is built by positionally zipping the input
rows with the parsed result lines in the order the service returned them:
it exists iff the counts match, in which case entry *i* pairs row *i* with
the *i*-th returned line (no matching by `custom_id` anywhere); on a count
mismatch the construction raises and no table is produced. -/
theorem c2_amended (texts : List String) (content : String) :
    ((processBatchResults content).length = texts.length →
      resultTable texts (processBatchResults content)
          = some (texts.zip (processBatchResults content))
      ∧ (texts.zip (processBatchResults content)).length = texts.length
      ∧ ∀ i, ∀ h1 : i < texts.length, ∀ h2 : i < (processBatchResults content).length,
          ∀ h3 : i < (texts.zip (processBatchResults content)).length,
          (texts.zip (processBatchResults content)).get ⟨i, h3⟩
            = (texts.get ⟨i, h1⟩, (processBatchResults content).get ⟨i, h2⟩))
    ∧ (¬ (processBatchResults content).length = texts.length →
        resultTable texts (processBatchResults content) = none) := by
  constructor
  · intro hlen
    refine ⟨by simp [resultTable, hlen], by simp [hlen], ?_⟩
    intro i h1 h2 h3
    exact zip_get texts (processBatchResults content) i h1 h2 h3
  · intro hne
    rw [resultTable, if_neg (fun h => hne h.symm)]

theorem c2_amended_witness :
    (processBatchResults "x").length = (["摘要一"] : List String).length
    ∧ (resultTable ["摘要一"] (processBatchResults "x")
          = some ((["摘要一"] : List String).zip (processBatchResults "x"))
       ∧ ((["摘要一"] : List String).zip (processBatchResults "x")).length
          = (["摘要一"] : List String).length
       ∧ ∀ i, ∀ h1 : i < (["摘要一"] : List String).length,
          ∀ h2 : i < (processBatchResults "x").length,
          ∀ h3 : i < ((["摘要一"] : List String).zip (processBatchResults "x")).length,
          ((["摘要一"] : List String).zip (processBatchResults "x")).get ⟨i, h3⟩
            = ((["摘要一"] : List String).get ⟨i, h1⟩,
               (processBatchResults "x").get ⟨i, h2⟩)) :=
  ⟨by decide, (c2_amended ["摘要一"] "x").1 (by decide)⟩

theorem dropWhile_not_head {p : Char → Bool} (c : Char) (cs : List Char)
    (h : p c = false) : (c :: cs).dropWhile p = c :: cs := by
  simp [List.dropWhile_cons, h]

theorem length_dropWhile_le (p : Char → Bool) :
    ∀ l : List Char, (l.dropWhile p).length ≤ l.length
  | [] => Nat.le_refl _
  | c :: cs => by
    rw [List.dropWhile_cons]
    cases hpc : p c with
    | true =>
      rw [if_pos rfl]
      exact Nat.le_trans (length_dropWhile_le p cs) (Nat.le_succ _)
    | false =>
      rw [if_neg (by simp)]

theorem head_false_of_dropWhile_self {p : Char → Bool} (c : Char) (cs : List Char)
    (h : (c :: cs).dropWhile p = c :: cs) : p c = false := by
  cases hpc : p c with
  | false => rfl
  | true =>
    rw [List.dropWhile_cons, if_pos hpc] at h
    have h1 := congrArg List.length h
    have h2 := length_dropWhile_le p cs
    simp at h1
    omega

theorem trimWs_of_ends (l : List Char)
    (h1 : l.dropWhile isWs = l) (h2 : l.reverse.dropWhile isWs = l.reverse) :
    trimWsL l = l := by
  rw [trimWsL, h1, h2, List.reverse_reverse]

/-- The fenced-code wrapper the remote model may put around its answer:
an opening delimiter line with a language tag, the body, and a closing
delimiter line. -/
def fenceWrapL (body : List Char) : List Char :=
  backtick :: backtick :: backtick :: 'j' :: 's' :: 'o' :: 'n' :: '\n' ::
    (body ++ '\n' :: backtick :: backtick :: backtick :: [])

/-- Stripping the fenced-code marker recovers exactly the wrapped body
(for a body with no leading or trailing whitespace). -/
theorem stripFence_wrap (body : List Char) (hne : body ≠ [])
    (hh : body.dropWhile isWs = body)
    (hl : body.reverse.dropWhile isWs = body.reverse) :
    stripFenceL (fenceWrapL body) = body := by
  obtain ⟨c, cs, rfl⟩ : ∃ c cs, body = c :: cs := by
    cases body with
    | nil => exact absurd rfl hne
    | cons c cs => exact ⟨c, cs, rfl⟩
  have hc : isWs c = false := head_false_of_dropWhile_self c cs hh
  have hW1 : (fenceWrapL (c :: cs)).dropWhile isWs = fenceWrapL (c :: cs) := by
    rw [fenceWrapL]
    exact dropWhile_not_head _ _ (by decide)
  have hWrev : (fenceWrapL (c :: cs)).reverse
      = backtick :: ((backtick :: backtick :: backtick :: 'j' :: 's' :: 'o' :: 'n' :: '\n' ::
          ((c :: cs) ++ ['\n', backtick, backtick]))).reverse := by
    simp [fenceWrapL]
  have hW2 : (fenceWrapL (c :: cs)).reverse.dropWhile isWs
      = (fenceWrapL (c :: cs)).reverse := by
    rw [hWrev]
    exact dropWhile_not_head _ _ (by decide)
  have htrim : trimWsL (fenceWrapL (c :: cs)) = fenceWrapL (c :: cs) :=
    trimWs_of_ends _ hW1 hW2
  have hpre1 : isPrefixL [backtick, backtick, backtick] (fenceWrapL (c :: cs)) = true := by
    rw [fenceWrapL]
    simp +decide [isPrefixL]
  have hdrop3 : (fenceWrapL (c :: cs)).drop 3
      = 'j' :: 's' :: 'o' :: 'n' :: '\n' ::
          ((c :: cs) ++ '\n' :: backtick :: backtick :: backtick :: []) := by
    rw [fenceWrapL]
    rfl
  have hafter : (('j' :: 's' :: 'o' :: 'n' :: '\n' ::
        ((c :: cs) ++ '\n' :: backtick :: backtick :: backtick :: [])) :
          List Char).dropWhile (fun ch => !(ch = '\n'))
      = '\n' :: ((c :: cs) ++ '\n' :: backtick :: backtick :: backtick :: []) := by
    simp +decide [List.dropWhile_cons]
  have hR1 : ((c :: cs) ++ '\n' :: backtick :: backtick :: backtick :: []).dropWhile isWs
      = (c :: cs) ++ '\n' :: backtick :: backtick :: backtick :: [] := by
    rw [List.cons_append]
    exact dropWhile_not_head _ _ hc
  have hRrev : ((c :: cs) ++ '\n' :: backtick :: backtick :: backtick :: []).reverse
      = backtick :: backtick :: backtick :: '\n' :: (c :: cs).reverse := by
    simp
  have hR2 : ((c :: cs) ++ '\n' :: backtick :: backtick :: backtick :: []).reverse.dropWhile isWs
      = ((c :: cs) ++ '\n' :: backtick :: backtick :: backtick :: []).reverse := by
    rw [hRrev]
    exact dropWhile_not_head _ _ (by decide)
  have htrimR : trimWsL ((c :: cs) ++ '\n' :: backtick :: backtick :: backtick :: [])
      = (c :: cs) ++ '\n' :: backtick :: backtick :: backtick :: [] :=
    trimWs_of_ends _ hR1 hR2
  have hpre2 : isPrefixL [backtick, backtick, backtick]
      (backtick :: backtick :: backtick :: '\n' :: (c :: cs).reverse) = true := by
    simp +decide [isPrefixL]
  have hd3 : ((backtick :: backtick :: backtick :: '\n' :: (c :: cs).reverse) :
      List Char).drop 3 = '\n' :: (c :: cs).reverse := rfl
  have hrevrev : (('\n' :: (c :: cs).reverse) : List Char).reverse
      = (c :: cs) ++ ['\n'] := by
    simp
  have hF1 : ((c :: cs) ++ ['\n']).dropWhile isWs = (c :: cs) ++ ['\n'] := by
    rw [List.cons_append]
    exact dropWhile_not_head _ _ hc
  have hF2 : ((c :: cs) ++ ['\n']).reverse.dropWhile isWs = (c :: cs).reverse := by
    have : ((c :: cs) ++ ['\n']).reverse = '\n' :: (c :: cs).reverse := by simp
    rw [this, List.dropWhile_cons, if_pos (by decide)]
    exact hl
  simp only [stripFenceL]
  rw [htrim, if_pos hpre1, hdrop3, hafter]
  simp only []
  rw [htrimR, hRrev, if_pos hpre2, hd3, hrevrev]
  rw [trimWsL, hF1, hF2, List.reverse_reverse]

/-- C6: the modelled ResultParser is total — one result per raw line,
each line parsed independently (so a malformed line never aborts the
rest) — the raw line is always retained in the result, and every
enumerated failure mode sets `parse_error`: a line that is not JSON, a
line without the response content, content that is still not valid JSON
after stripping the optional fenced-code marker, and a payload missing
the required fields; moreover the fenced-code marker is stripped exactly,
so wrapped content parses identically to the unwrapped body. -/
theorem c6_parser_isolation (content : String) (i : Nat)
    (h : i < (linesOf content).length)
    (h2 : i < (processBatchResults content).length) :
    (processBatchResults content).length = (linesOf content).length
    ∧ (processBatchResults content).get ⟨i, h2⟩
        = parseResultLine ((linesOf content).get ⟨i, h⟩)
    ∧ (∀ line : String, (parseResultLine line).raw = line)
    ∧ (∀ line : String, jsonFull line = none →
        (parseResultLine line).parse_error = some "line is not valid JSON")
    ∧ (∀ line : String, ∀ j : JValue, jsonFull line = some j →
        extractContent j = none →
        (parseResultLine line).parse_error = some "missing response content")
    ∧ (∀ line : String, ∀ j : JValue, ∀ c : String, jsonFull line = some j →
        extractContent j = some c → jsonFull (stripFence c) = none →
        (parseResultLine line).parse_error = some "content is not valid JSON")
    ∧ (∀ line : String, ∀ j : JValue, ∀ c : String, ∀ payload : JValue,
        jsonFull line = some j → extractContent j = some c →
        jsonFull (stripFence c) = some payload → extractRequired payload = none →
        (parseResultLine line).parse_error = some "missing required fields")
    ∧ (∀ body : List Char, body ≠ [] → body.dropWhile isWs = body →
        body.reverse.dropWhile isWs = body.reverse →
        stripFence (String.mk (fenceWrapL body)) = String.mk body
        ∧ jsonFull (stripFence (String.mk (fenceWrapL body)))
            = jsonFull (String.mk body)) := by
  refine ⟨by simp [processBatchResults], ?_, ?_, ?_, ?_, ?_, ?_, ?_⟩
  · simp only [processBatchResults, List.get_eq_getElem, List.getElem_map]
  · intro line
    rw [parseResultLine.eq_def]
    repeat' split
    all_goals rfl
  · intro line hj
    rw [parseResultLine.eq_def, hj]
  · intro line j hline hE
    rw [parseResultLine.eq_def, hline]
    simp only [hE]
  · intro line j c hline hE hstrip
    rw [parseResultLine.eq_def, hline]
    simp only [hE, hstrip]
  · intro line j c payload hline hE hstrip hreq
    rw [parseResultLine.eq_def, hline]
    simp only [hE, hstrip, hreq]
  · intro body hne hh hl
    have hs : stripFence (String.mk (fenceWrapL body)) = String.mk body := by
      rw [stripFence,
        show (String.mk (fenceWrapL body)).data = fenceWrapL body from rfl,
        stripFence_wrap body hne hh hl]
    exact ⟨hs, by rw [hs]⟩

theorem c6_parser_isolation_witness :
    (0 < (linesOf "not json at all").length)
    ∧ (0 < (processBatchResults "not json at all").length)
    ∧ ((processBatchResults "not json at all").length
        = (linesOf "not json at all").length
       ∧ (processBatchResults "not json at all").get ⟨0, by decide⟩
          = parseResultLine ((linesOf "not json at all").get ⟨0, by decide⟩)
       ∧ (∀ line : String, (parseResultLine line).raw = line)
       ∧ (∀ line : String, jsonFull line = none →
            (parseResultLine line).parse_error = some "line is not valid JSON")
       ∧ (∀ line : String, ∀ j : JValue, jsonFull line = some j →
            extractContent j = none →
            (parseResultLine line).parse_error = some "missing response content")
       ∧ (∀ line : String, ∀ j : JValue, ∀ c : String, jsonFull line = some j →
            extractContent j = some c → jsonFull (stripFence c) = none →
            (parseResultLine line).parse_error = some "content is not valid JSON")
       ∧ (∀ line : String, ∀ j : JValue, ∀ c : String, ∀ payload : JValue,
            jsonFull line = some j → extractContent j = some c →
            jsonFull (stripFence c) = some payload → extractRequired payload = none →
            (parseResultLine line).parse_error = some "missing required fields")
       ∧ (∀ body : List Char, body ≠ [] → body.dropWhile isWs = body →
            body.reverse.dropWhile isWs = body.reverse →
            stripFence (String.mk (fenceWrapL body)) = String.mk body
            ∧ jsonFull (stripFence (String.mk (fenceWrapL body)))
                = jsonFull (String.mk body))) :=
  ⟨by decide, by decide,
   c6_parser_isolation "not json at all" 0 (by decide) (by decide)⟩
